import Mathlib

/-!
Shallow embedding of `src/app.py`, a table-side restaurant ordering app
(Flask + SQLAlchemy).  The engine parts relevant to the claims are modelled
as pure Lean functions over explicit record states:

* money values (`Float` columns holding two-decimal currency) are modelled
  as exact rationals `ℚ`, with Python `round(x, 2)` modelled as
  round-half-to-even on `x * 100`;
* `datetime` values are modelled as a `Timestamp` record holding a calendar
  day number and a seconds-within-day number, so that `db.func.date` is the
  projection on the first component;
* Python `str.strip` / `int(...)` / regular expressions in `slugify` are
  modelled character-wise; `\w`, `\s`, `lower()` are modelled on the ASCII
  fragment (`Char.isAlphanum`, `Char.isWhitespace`, `Char.toLower`), which
  is the fragment all claims evaluate;
* the mutation performed by a Flask route on an order row becomes a function
  `Order → ... → Order` (plus an error component mirroring `flash`).
-/

namespace QRCafe

/-- A `datetime.utcnow()` value: calendar day plus time of day (seconds).
`db.func.date` is the projection `day`. -/
structure Timestamp where
  day : Nat
  sec : Nat
deriving DecidableEq

/-- Chronological order on timestamps (lexicographic on day, then second). -/
def tsLe (a b : Timestamp) : Prop :=
  a.day < b.day ∨ (a.day = b.day ∧ a.sec ≤ b.sec)

instance (a b : Timestamp) : Decidable (tsLe a b) := by
  unfold tsLe; infer_instance

/-- Python `str.strip()` on a character list: drop leading and trailing
whitespace. -/
def pyStripL (l : List Char) : List Char :=
  ((l.dropWhile Char.isWhitespace).reverse.dropWhile Char.isWhitespace).reverse

/-- Python `str.strip()`. -/
def pyStrip (s : String) : String :=
  ⟨pyStripL s.data⟩

/-- Value of a list of decimal digit characters. -/
def digitsToNat (l : List Char) : Nat :=
  l.foldl (fun a c => a * 10 + (c.toNat - 48)) 0

/-- Python `int(s)` on a string: optional surrounding whitespace, optional
sign, then decimal digits; anything else raises `ValueError`, modelled as
`none`.  (Underscore digit grouping is not modelled.) -/
def pyInt? (s : String) : Option Int :=
  match pyStripL s.data with
  | [] => none
  | c :: rest =>
    let ds := if c = '-' ∨ c = '+' then rest else c :: rest
    if ds ≠ [] ∧ ds.all Char.isDigit then
      some (if c = '-' then -(digitsToNat ds : Int) else (digitsToNat ds : Int))
    else none

/-- Round a rational to the nearest integer, ties to even: the rounding mode
of Python 3 `round`. -/
def roundHalfEven (x : ℚ) : ℤ :=
  if x - ⌊x⌋ = 1 / 2 then (if ⌊x⌋ % 2 = 0 then ⌊x⌋ else ⌊x⌋ + 1) else round x

/-- Python `round(x, 2)`. -/
def round2 (x : ℚ) : ℚ :=
  (roundHalfEven (x * 100) : ℚ) / 100

/-- Model of `class MenuItem(db.Model)` (src/app.py:37-43). -/
structure MenuItem where
  id : Nat
  name : String
  description : String
  price : ℚ
  category : Option String
  available : Bool
deriving DecidableEq

/-- Model of `class OrderItem(db.Model)` (src/app.py:71-78): a line item snapshotting
the menu price at creation time. -/
structure OrderItem where
  menu_item_id : Nat
  quantity : Int
  price : ℚ
deriving DecidableEq

/-- Model of `OrderItem.subtotal` (src/app.py:80-82): `round(self.quantity * self.price, 2)`. -/
def OrderItem.subtotal (it : OrderItem) : ℚ :=
  round2 ((it.quantity : ℚ) * it.price)

/-- Model of `class Order(db.Model)` (src/app.py:46-60). -/
structure Order where
  table_id : Nat
  status : String
  total_amount : ℚ
  created_at : Timestamp
  updated_at : Timestamp
  requested_assistance : Bool
  created_by_id : Option Nat
  paid_at : Option Timestamp
  payment_method : Option String
  items : List OrderItem
deriving DecidableEq

/-- Model of `Order.is_active` (src/app.py:62-64): `self.status not in {"paid", "cancelled"}`. -/
def Order.is_active (o : Order) : Bool :=
  !(o.status == "paid" || o.status == "cancelled")

/-- Model of `Order.recalculate_total` (src/app.py:66-68): sum of line-item subtotals,
plus the `updated_at` bump. -/
def Order.recalculate_total (o : Order) (now : Timestamp) : Order :=
  { o with total_amount := (o.items.map OrderItem.subtotal).sum, updated_at := now }

/-- Model of `STATUS_FLOW` (src/app.py:85). -/
def STATUS_FLOW : List String :=
  ["pending", "preparing", "served", "completed", "paid"]

/-- The regex class `\w` of `re`, restricted to ASCII: letters, digits, underscore. -/
def isWordChar (c : Char) : Bool :=
  c.isAlphanum || c == '_'

/-- One pass of `re.sub(r"\s+", "-", ...)`: each maximal whitespace run is
replaced by a single `'-'`.  The boolean argument records whether the
previous character was part of a whitespace run. -/
def collapseWsAux : Bool → List Char → List Char
  | _, [] => []
  | prevWs, c :: rest =>
    if c.isWhitespace then
      (if prevWs then [] else ['-']) ++ collapseWsAux true rest
    else c :: collapseWsAux false rest

/-- Model of `slugify` (src/app.py:88-92): strip, lowercase, collapse whitespace to
`-`, drop characters outside `[\w-]`, and fall back to `"section"` when the
result is empty. -/
def slugify (value : String) : String :=
  let chars := (pyStripL value.data).map Char.toLower
  let collapsed := collapseWsAux false chars
  let cleaned := collapsed.filter (fun c => isWordChar c || c == '-')
  if cleaned.isEmpty then "section" else ⟨cleaned⟩

/-- One entry of the `menu_sections` list built in `table_view`
(src/app.py:429-439). -/
structure MenuSection where
  name : String
  anchor : String
  items : List MenuItem
deriving DecidableEq

/-- The expression `item.category or "เมนูแนะนำ"` (src/app.py:432): `None` and the empty
string are falsy, anything else is kept. -/
def effectiveCategory (it : MenuItem) : String :=
  match it.category with
  | none => "เมนูแนะนำ"
  | some c => if c = "" then "เมนูแนะนำ" else c

/-- Little-endian decimal digits of `n`, with structural fuel (any
`fuel ≥ n` gives the digits of `n`; shown below to agree with
`Nat.digits 10`). -/
def toDigitsRev : Nat → Nat → List Nat
  | 0, _ => []
  | fuel + 1, n => if n = 0 then [] else (n % 10) :: toDigitsRev fuel (n / 10)

/-- Decimal representation of a natural number (the `f"section-{i}"`
formatting of src/app.py:436). -/
def natRepr (n : Nat) : String :=
  if n = 0 then "0" else ⟨((toDigitsRev n n).map Nat.digitChar).reverse⟩

/-- The numbered fallback anchor `f"section-{fallback_index}"` (src/app.py:436). -/
def mkFallbackAnchor (idx : Nat) : String :=
  "section-" ++ natRepr idx

/-- Starting a fresh section in the `table_view` loop (src/app.py:434-438):
compute the anchor from the category, replacing the `"section"` slug by the
numbered fallback and bumping `fallback_index`. -/
def pushSection (acc : List MenuSection) (idx : Nat) (catName : String) (item : MenuItem) :
    List MenuSection × Nat :=
  if slugify catName = "section" then
    ({ name := catName, anchor := mkFallbackAnchor idx, items := [item] } :: acc, idx + 1)
  else
    ({ name := catName, anchor := slugify catName, items := [item] } :: acc, idx)

/-- The `for item in menu_items` loop of `table_view` (src/app.py:431-439),
with the section list kept in reverse (the Python code mutates
`menu_sections[-1]`, which is the head of the reversed list). -/
def buildRev : List MenuSection → Nat → List MenuItem → List MenuSection × Nat
  | acc, idx, [] => (acc, idx)
  | acc, idx, item :: rest =>
    let catName := effectiveCategory item
    match acc with
    | s :: ss =>
      if s.name = catName then
        buildRev ({ s with items := s.items ++ [item] } :: ss) idx rest
      else
        let p := pushSection (s :: ss) idx catName item
        buildRev p.1 p.2 rest
    | [] =>
      let p := pushSection [] idx catName item
      buildRev p.1 p.2 rest

/-- The `menu_sections` value rendered by `table_view` (src/app.py:429-439),
for a given (already filtered and sorted) menu item list. -/
def table_view_sections (menu_items : List MenuItem) : List MenuSection :=
  (buildRev [] 1 menu_items).1.reverse

/-- The `Order.status == "paid"` filter of the `total_sales` query
(src/app.py:184-188). -/
def isPaidOrder (o : Order) : Bool :=
  o.status == "paid"

/-- Model of `total_sales` in `admin_dashboard` (src/app.py:184-188):
`coalesce(sum(total_amount), 0)` over orders with status `"paid"`
(the sum of the empty list is `0`). -/
def totalRevenue (orders : List Order) : ℚ :=
  ((orders.filter isPaidOrder).map Order.total_amount).sum

/-- The filter of the `today_sales` query (src/app.py:190-198): status
`"paid"`, `paid_at` not null, and `date(paid_at)` equal to the given day. -/
def paidOnFilter (today : Nat) (o : Order) : Bool :=
  o.status == "paid" &&
    (match o.paid_at with
     | some ts => ts.day == today
     | none => false)

/-- Model of `today_sales` in `admin_dashboard` (src/app.py:189-198). -/
def todayRevenue (orders : List Order) (today : Nat) : ℚ :=
  ((orders.filter (paidOnFilter today)).map Order.total_amount).sum

/-- The ordering `order_by(Order.created_at.desc())`: `a` was created no earlier than `b`. -/
def newestFirst (a b : Order) : Prop :=
  tsLe b.created_at a.created_at

instance : DecidableRel newestFirst := fun a b => by
  unfold newestFirst; infer_instance

instance : IsTotal Order newestFirst := by
  constructor; intro a b; unfold newestFirst tsLe; omega

instance : IsTrans Order newestFirst := by
  constructor; intro a b c; unfold newestFirst tsLe; omega

/-- The `open_orders` admin-overview query (src/app.py:199-204):
`Order.query.filter(Order.status != "paid").order_by(created_at.desc()).limit(10)`. -/
def recentOrders (orders : List Order) : List Order :=
  ((orders.filter (fun o => !(o.status == "paid"))).insertionSort newestFirst).take 10

/-- The order row together with the flashed error of a status-update request
(`None` when the update succeeded).  The flashed Thai message of
src/app.py:395 is the spec's `InvalidStatusError`. -/
structure StatusUpdateResult where
  order : Order
  error : Option String
deriving DecidableEq

/-- Model of `staff_update_status` (src/app.py:389-408) acting on the order row:
`status` is `request.form.get("status")` (absent → `None`, never in
`STATUS_FLOW`), `pmRaw` is `request.form.get("payment_method", "")`. -/
def staff_update_status (o : Order) (status : Option String) (pmRaw : Option String)
    (now : Timestamp) : StatusUpdateResult :=
  match status with
  | none => ⟨o, some "InvalidStatusError"⟩
  | some s =>
    if s ∉ STATUS_FLOW then ⟨o, some "InvalidStatusError"⟩
    else
      let o1 := { o with status := s, updated_at := now }
      if s = "paid" then
        let pmv := pyStrip (pmRaw.getD "")
        ⟨{ o1 with paid_at := some now,
                   payment_method := if pmv = "" then none else some pmv }, none⟩
      else
        ⟨{ o1 with payment_method := none, paid_at := none }, none⟩

/-- The effective quantity of one form field in `parse_order_items`
(src/app.py:140-144): `int(raw_qty or 0)` with `ValueError` mapped to `0`. -/
def effQty (raw : Option String) : Int :=
  match raw with
  | none => 0
  | some s => if s = "" then 0 else (pyInt? s).getD 0

/-- Model of `parse_order_items` (src/app.py:137-147): the form is the partial map
`id ↦ form_data.get(f"item_{id}")`. -/
def parse_order_items (form : Nat → Option String) (menu_items : List MenuItem) :
    List (MenuItem × Int) :=
  menu_items.filterMap (fun item =>
    let qty := effQty (form item.id)
    if qty > 0 then some (item, qty) else none)

/-- The order-creation step shared by `staff_new_order` (src/app.py:359-376)
and the `table_view` POST branch (src/app.py:446-468), for an
already-resolved table (the missing-table branch of src/app.py:353-358 is a
separate error path that never reaches this code): reject when the filtered
selection is empty, otherwise build the `pending` order, snapshot each menu
price into a line item, and recalculate the total. -/
def staff_new_order_create (tid : Nat) (form : Nat → Option String)
    (menu_items : List MenuItem) (cb : Option Nat) (now : Timestamp) : Option Order :=
  let selected := parse_order_items form menu_items
  if selected = [] then none
  else
    some (Order.recalculate_total
      { table_id := tid
        status := "pending"
        total_amount := 0
        created_at := now
        updated_at := now
        requested_assistance := false
        created_by_id := cb
        paid_at := none
        payment_method := none
        items := selected.map (fun p => ⟨p.1.id, p.2, p.1.price⟩) } now)

/-- The orders reachable through the app's order-mutating routes:
creation (`staff_new_order` / `table_view` POST), `staff_update_status`,
`staff_acknowledge` (src/app.py:410-418) and `customer_call_staff`
(src/app.py:493-501). -/
inductive Reachable : Order → Prop
  | created (tid : Nat) (form : Nat → Option String) (menu : List MenuItem)
      (cb : Option Nat) (now : Timestamp) (o : Order) :
      staff_new_order_create tid form menu cb now = some o → Reachable o
  | statusUpdated (o o' : Order) (s : Option String) (pm : Option String) (now : Timestamp) :
      Reachable o → staff_update_status o s pm now = ⟨o', none⟩ → Reachable o'
  | acknowledged (o : Order) (now : Timestamp) :
      Reachable o → Reachable { o with requested_assistance := false, updated_at := now }
  | assistanceRequested (o : Order) (now : Timestamp) :
      Reachable o → Reachable { o with requested_assistance := true, updated_at := now }

/-- Removal of adjacent duplicates: the shape of a section-name sequence
produced by adjacency-based grouping. -/
def dedupAdjacent : List String → List String
  | [] => []
  | [c] => [c]
  | c1 :: c2 :: rest =>
    if c1 = c2 then dedupAdjacent (c2 :: rest) else c1 :: dedupAdjacent (c2 :: rest)

/-- Section names emitted by the `table_view` loop after the accumulator's
last section carries the given name (proof device for `buildRev`). -/
def extRuns : Option String → List String → List String
  | _, [] => []
  | last, c :: rest =>
    if last = some c then extRuns last rest else c :: extRuns (some c) rest

/-- A section whose category slugifies to the reserved string `"section"`
(those are exactly the sections that receive a numbered fallback anchor). -/
def isFallbackSec (s : MenuSection) : Bool :=
  slugify s.name == "section"

/-- Whether `∃ sec, o.paid_at = some ⟨d, sec⟩` — i.e. the order was paid on
calendar day `d`, at any time of day — is decidable. -/
instance decPaidOnDay (o : Order) (d : Nat) : Decidable (∃ sec : Nat, o.paid_at = some ⟨d, sec⟩) :=
  match o.paid_at with
  | none => isFalse (by rintro ⟨sec, hs⟩; exact Option.noConfusion hs)
  | some ts =>
    if hd : ts.day = d then
      isTrue ⟨ts.sec, by rw [← hd]⟩
    else
      isFalse (by
        rintro ⟨sec, hs⟩
        injection hs with h2
        exact hd (congrArg Timestamp.day h2))

/-! Concrete inputs used by the witness theorems. -/

/-- A sample available menu item. -/
def wItem : MenuItem := ⟨1, "Pad Thai", "", 80, some "Main", true⟩

/-- A one-item menu. -/
def wMenu : List MenuItem := [wItem]

/-- A submitted quantity map ordering two units of item 1. -/
def wForm : Nat → Option String := fun i => if i = 1 then some "2" else none

/-- A quantity map whose only value is unparsable. -/
def badForm : Nat → Option String := fun i => if i = 1 then some "abc" else none

/-- The base order row built by `staff_new_order_create` for `wForm`/`wMenu`. -/
def wOrderBase : Order :=
  { table_id := 1
    status := "pending"
    total_amount := 0
    created_at := ⟨1, 0⟩
    updated_at := ⟨1, 0⟩
    requested_assistance := false
    created_by_id := none
    paid_at := none
    payment_method := none
    items := [⟨1, 2, 80⟩] }

/-- The order produced by `staff_new_order_create 1 wForm wMenu none ⟨1, 0⟩`. -/
def wOrder : Order := Order.recalculate_total wOrderBase ⟨1, 0⟩

/-- A sample mid-pipeline order with payment fields populated. -/
def sampleOrder : Order :=
  { table_id := 1
    status := "preparing"
    total_amount := 0
    created_at := ⟨1, 10⟩
    updated_at := ⟨1, 10⟩
    requested_assistance := false
    created_by_id := none
    paid_at := some ⟨1, 20⟩
    payment_method := some "cash"
    items := [] }

/-- A sample non-paid order. -/
def pendingOrder : Order :=
  { table_id := 1
    status := "pending"
    total_amount := 50
    created_at := ⟨2, 5⟩
    updated_at := ⟨2, 5⟩
    requested_assistance := false
    created_by_id := none
    paid_at := none
    payment_method := none
    items := [] }

/-- A sample paid order. -/
def paidOrderCex : Order :=
  { table_id := 2
    status := "paid"
    total_amount := 75
    created_at := ⟨3, 0⟩
    updated_at := ⟨3, 5⟩
    requested_assistance := false
    created_by_id := none
    paid_at := some ⟨3, 5⟩
    payment_method := some "cash"
    items := [] }

/-- Menu items with categories Soup, Soup, Drinks (in sorted order). -/
def soupA : MenuItem := ⟨1, "Tom Yum", "", 120, some "Soup", true⟩

/-- Second item of the Soup category. -/
def soupB : MenuItem := ⟨2, "Tom Kha", "", 110, some "Soup", true⟩

/-- An item of the Drinks category. -/
def drinkC : MenuItem := ⟨3, "Thai Tea", "", 45, some "Drinks", true⟩

/-- A menu item whose category is literally named `"Section"`. -/
def secItemA : MenuItem := ⟨10, "A", "", 10, some "Section", true⟩

/-- A menu item whose category is symbol-only (slug collapses to empty). -/
def secItemB : MenuItem := ⟨11, "B", "", 20, some "!!!", true⟩

/-! Helper lemmas. -/

theorem round2_of_int (x : ℚ) (m : ℤ) (h : x * 100 = (m : ℚ)) : round2 x = x := by
  have hx : x = (m : ℚ) / 100 := by
    field_simp
    linarith
  unfold round2 roundHalfEven
  rw [h, Int.floor_intCast, sub_self]
  rw [if_neg (by norm_num : ¬ ((0 : ℚ) = 1 / 2))]
  rw [round_intCast, hx]

theorem sum_hundred_int : ∀ (l : List ℚ), (∀ x ∈ l, ∃ m : ℤ, x * 100 = (m : ℚ)) →
    ∃ M : ℤ, l.sum * 100 = (M : ℚ)
  | [], _ => ⟨0, by simp⟩
  | a :: l, h => by
    obtain ⟨m, hm⟩ := h a (List.mem_cons_self a l)
    obtain ⟨M, hM⟩ := sum_hundred_int l (fun x hx => h x (List.mem_cons_of_mem a hx))
    exact ⟨m + M, by push_cast; rw [List.sum_cons, add_mul, hm, hM]⟩

theorem recalc_total_eq (o : Order) (now : Timestamp)
    (h : ∀ it ∈ o.items, ∃ m : ℤ, it.price * 100 = (m : ℚ)) :
    (o.recalculate_total now).total_amount
      = round2 ((o.items.map (fun it => (it.quantity : ℚ) * it.price)).sum) := by
  have hmap : o.items.map OrderItem.subtotal
      = o.items.map (fun it => (it.quantity : ℚ) * it.price) := by
    apply List.map_congr_left
    intro it hit
    obtain ⟨m, hm⟩ := h it hit
    unfold OrderItem.subtotal
    apply round2_of_int _ (it.quantity * m)
    push_cast
    rw [mul_assoc, hm]
  obtain ⟨M, hM⟩ := sum_hundred_int (o.items.map (fun it => (it.quantity : ℚ) * it.price))
    (by
      intro x hx
      obtain ⟨it, hit, rfl⟩ := List.mem_map.mp hx
      obtain ⟨m, hm⟩ := h it hit
      exact ⟨it.quantity * m, by push_cast; rw [mul_assoc, hm]⟩)
  show (o.items.map OrderItem.subtotal).sum = _
  rw [hmap, round2_of_int _ M hM]

theorem parse_order_items_mem {form : Nat → Option String} {menu : List MenuItem}
    {mi : MenuItem} {q : Int} (h : (mi, q) ∈ parse_order_items form menu) :
    mi ∈ menu ∧ 0 < q := by
  simp only [parse_order_items, List.mem_filterMap] at h
  obtain ⟨a, ha, hf⟩ := h
  by_cases hq : effQty (form a.id) > 0
  · rw [if_pos hq] at hf
    obtain ⟨rfl, rfl⟩ := Prod.mk.injEq .. ▸ Option.some.injEq .. ▸ hf
    exact ⟨ha, hq⟩
  · rw [if_neg hq] at hf
    exact absurd hf (by simp)

/-! Claim theorems. -/

/-- Claim C1: for every order whose snapshotted line-item prices have
two-decimal precision, `recalculate_total` sets `total_amount` to the sum
of `quantity * price` over the line items, rounded to 2 decimals; and for
every creation input with a nonempty filtered selection drawn from a
two-decimal-priced menu, `staff_new_order_create` produces an order whose
`total_amount` equals that rounded sum over its snapshotted line items. -/
theorem C1_total_amount :
    (∀ (o : Order) (now : Timestamp),
        (∀ it ∈ o.items, ∃ m : ℤ, it.price * 100 = (m : ℚ)) →
        (o.recalculate_total now).total_amount
          = round2 ((o.items.map (fun it => (it.quantity : ℚ) * it.price)).sum))
    ∧ (∀ (tid : Nat) (form : Nat → Option String) (menu : List MenuItem)
        (cb : Option Nat) (now : Timestamp),
        (∀ mi ∈ menu, ∃ m : ℤ, mi.price * 100 = (m : ℚ)) →
        parse_order_items form menu ≠ [] →
        ∃ o, staff_new_order_create tid form menu cb now = some o ∧
          o.total_amount
            = round2 ((o.items.map (fun it => (it.quantity : ℚ) * it.price)).sum)) := by
  refine ⟨fun o now h => recalc_total_eq o now h, ?_⟩
  intro tid form menu cb now hmenu hne
  unfold staff_new_order_create
  rw [if_neg hne]
  refine ⟨_, rfl, ?_⟩
  apply recalc_total_eq
  intro it hit
  simp only [List.mem_map] at hit
  obtain ⟨p, hp, rfl⟩ := hit
  exact hmenu p.1 (parse_order_items_mem hp).1

/-- Witness for C1 at a concrete order and a concrete creation input. -/
theorem C1_total_amount_witness :
    (wOrderBase.recalculate_total ⟨2, 0⟩).total_amount
      = round2 ((wOrderBase.items.map (fun it => (it.quantity : ℚ) * it.price)).sum)
    ∧ ∃ o, staff_new_order_create 1 wForm wMenu none ⟨1, 0⟩ = some o ∧
        o.total_amount = round2 ((o.items.map (fun it => (it.quantity : ℚ) * it.price)).sum) :=
  ⟨C1_total_amount.1 wOrderBase ⟨2, 0⟩
      (by
        intro it hit
        simp only [wOrderBase, List.mem_singleton] at hit
        subst hit
        exact ⟨8000, by norm_num⟩),
   C1_total_amount.2 1 wForm wMenu none ⟨1, 0⟩
      (by
        intro mi hmi
        simp only [wMenu, List.mem_singleton] at hmi
        subst hmi
        exact ⟨8000, by norm_num [wItem]⟩)
      (by decide)⟩

/-- Claim C2: transitioning an order to `"paid"` succeeds, stamps `paid_at`
with the (non-nil) current timestamp and stores the stripped caller-supplied
payment method (`none` when it is blank); transitioning to any other
pipeline value succeeds and unconditionally clears both fields. -/
theorem C2_paid_transition (o : Order) (pm : String) (now : Timestamp) :
    ((staff_update_status o (some "paid") (some pm) now).error = none
      ∧ (staff_update_status o (some "paid") (some pm) now).order.paid_at = some now
      ∧ (staff_update_status o (some "paid") (some pm) now).order.payment_method
          = (if pyStrip pm = "" then none else some (pyStrip pm)))
    ∧ (∀ s, s ∈ STATUS_FLOW → s ≠ "paid" →
        (staff_update_status o (some s) (some pm) now).error = none
        ∧ (staff_update_status o (some s) (some pm) now).order.paid_at = none
        ∧ (staff_update_status o (some s) (some pm) now).order.payment_method = none) := by
  constructor
  · simp [staff_update_status, STATUS_FLOW]
  · intro s hs hne
    simp [staff_update_status, hs, hne]

/-- Witness for C2 at a concrete order, with method `"cash"` and target
statuses `"paid"` and `"preparing"`. -/
theorem C2_paid_transition_witness :
    ((staff_update_status sampleOrder (some "paid") (some "cash") ⟨4, 2⟩).error = none
      ∧ (staff_update_status sampleOrder (some "paid") (some "cash") ⟨4, 2⟩).order.paid_at
          = some ⟨4, 2⟩
      ∧ (staff_update_status sampleOrder (some "paid") (some "cash") ⟨4, 2⟩).order.payment_method
          = (if pyStrip "cash" = "" then none else some (pyStrip "cash")))
    ∧ ((staff_update_status sampleOrder (some "preparing") (some "cash") ⟨4, 2⟩).error = none
      ∧ (staff_update_status sampleOrder (some "preparing") (some "cash") ⟨4, 2⟩).order.paid_at
          = none
      ∧ (staff_update_status sampleOrder (some "preparing") (some "cash") ⟨4, 2⟩).order.payment_method
          = none) :=
  ⟨(C2_paid_transition sampleOrder "cash" ⟨4, 2⟩).1,
   (C2_paid_transition sampleOrder "cash" ⟨4, 2⟩).2 "preparing" (by decide) (by decide)⟩

/-- Claim C3: for every status string outside the recognized pipeline set,
the transition reports `InvalidStatusError` and returns the order row
entirely unchanged (every field keeps its prior value). -/
theorem C3_invalid_status (o : Order) (s : String) (pmRaw : Option String)
    (now : Timestamp) (h : s ∉ STATUS_FLOW) :
    staff_update_status o (some s) pmRaw now = ⟨o, some "InvalidStatusError"⟩ := by
  simp only [staff_update_status]
  rw [if_pos h]

/-- Witness for C3: transitioning a concrete order to `"bogus"`. -/
theorem C3_invalid_status_witness :
    staff_update_status sampleOrder (some "bogus") none ⟨5, 0⟩
      = ⟨sampleOrder, some "InvalidStatusError"⟩ :=
  C3_invalid_status sampleOrder "bogus" none ⟨5, 0⟩ (by decide)

/-- Claim C8: `is_active` is `false` exactly when the status is `"paid"` or
`"cancelled"`, and `true` on every other pipeline value. -/
theorem C8_is_active (o : Order) :
    (o.is_active = false ↔ o.status = "paid" ∨ o.status = "cancelled")
    ∧ (∀ s, s ∈ STATUS_FLOW → s ≠ "paid" →
        ({ o with status := s } : Order).is_active = true) := by
  constructor
  · unfold Order.is_active
    by_cases h1 : o.status = "paid" <;> by_cases h2 : o.status = "cancelled" <;>
      simp [h1, h2]
  · intro s hs hne
    have h2 : s ≠ "cancelled" := by
      intro h; rw [h] at hs; exact absurd hs (by decide)
    simp [Order.is_active, hne, h2]

/-- Witness for C8 at a concrete order and the pipeline value `"pending"`. -/
theorem C8_is_active_witness :
    (sampleOrder.is_active = false ↔ sampleOrder.status = "paid" ∨ sampleOrder.status = "cancelled")
    ∧ ({ sampleOrder with status := "pending" } : Order).is_active = true :=
  ⟨(C8_is_active sampleOrder).1,
   (C8_is_active sampleOrder).2 "pending" (by decide) (by decide)⟩

/-- Claim C5: a malformed or missing quantity value makes its menu item
silently excluded from the parsed selection (never an error for the whole
request, since `parse_order_items` is total), and order creation is rejected
— producing no order — exactly when the filtered selection list is empty. -/
theorem C5_quantity_filtering :
    (∀ (form : Nat → Option String) (menu : List MenuItem) (it : MenuItem),
        (form it.id = none ∨ ∃ s, form it.id = some s ∧ pyInt? s = none) →
        ∀ q : Int, (it, q) ∉ parse_order_items form menu)
    ∧ (∀ (tid : Nat) (form : Nat → Option String) (menu : List MenuItem)
        (cb : Option Nat) (now : Timestamp),
        staff_new_order_create tid form menu cb now = none
          ↔ parse_order_items form menu = []) := by
  constructor
  · intro form menu it hbad q hmem
    have hq : effQty (form it.id) = 0 := by
      rcases hbad with hnone | ⟨s, hs, hparse⟩
      · rw [hnone]; rfl
      · rw [hs]
        show (if s = "" then 0 else (pyInt? s).getD 0) = 0
        by_cases he : s = ""
        · rw [if_pos he]
        · rw [if_neg he, hparse, Option.getD_none]
    simp only [parse_order_items, List.mem_filterMap] at hmem
    obtain ⟨a, _, hf⟩ := hmem
    by_cases hgt : effQty (form a.id) > 0
    · rw [if_pos hgt] at hf
      obtain ⟨rfl, -⟩ := Prod.mk.injEq .. ▸ Option.some.injEq .. ▸ hf
      rw [hq] at hgt
      exact absurd hgt (by norm_num)
    · rw [if_neg hgt] at hf
      exact absurd hf (by simp)
  · intro tid form menu cb now
    unfold staff_new_order_create
    by_cases h : parse_order_items form menu = []
    · rw [if_pos h]
      simp [h]
    · rw [if_neg h]
      simp [h]

/-- Witness for C5: the malformed quantity `"abc"` for item 1 excludes it,
and the creation attempt is rejected exactly because the filtered selection
is empty. -/
theorem C5_quantity_filtering_witness :
    ((wItem, 3) ∉ parse_order_items badForm wMenu)
    ∧ (staff_new_order_create 1 badForm wMenu none ⟨1, 0⟩ = none
        ↔ parse_order_items badForm wMenu = []) :=
  ⟨C5_quantity_filtering.1 badForm wMenu wItem
      (Or.inr ⟨"abc", by decide, by decide⟩) 3,
   C5_quantity_filtering.2 1 badForm wMenu none ⟨1, 0⟩⟩

/-- Claim C7 helper: `totalRevenue` as a sum over all orders. -/
theorem totalRevenue_eq (orders : List Order) :
    totalRevenue orders
      = (orders.map (fun o => if o.status = "paid" then o.total_amount else 0)).sum := by
  induction orders with
  | nil => rfl
  | cons o os ih =>
    by_cases h : o.status = "paid"
    · simp [totalRevenue, List.filter_cons, isPaidOrder, h, List.sum_cons] at ih ⊢
      rw [ih]
    · simp [totalRevenue, List.filter_cons, isPaidOrder, h, List.sum_cons] at ih ⊢
      rw [ih]

/-- Claim C7 helper: the Boolean filter of the `today_sales` query holds
exactly when the order is paid and `paid_at` falls on day `d` (at any time
of day). -/
theorem paidOnFilter_iff (d : Nat) (o : Order) :
    paidOnFilter d o = true
      ↔ (o.status = "paid" ∧ ∃ sec : Nat, o.paid_at = some ⟨d, sec⟩) := by
  unfold paidOnFilter
  rcases h : o.paid_at with - | ts
  · simp [h]
  · simp only [h, Bool.and_eq_true, beq_iff_eq, Option.some.injEq]
    constructor
    · rintro ⟨hp, hd⟩
      exact ⟨hp, ts.sec, by rw [← hd]⟩
    · rintro ⟨hp, sec, hts⟩
      exact ⟨hp, by rw [hts]⟩

/-- Claim C7 helper: `todayRevenue` as a sum over all orders. -/
theorem todayRevenue_eq (orders : List Order) (today : Nat) :
    todayRevenue orders today
      = (orders.map (fun o =>
          if o.status = "paid" ∧ ∃ sec : Nat, o.paid_at = some ⟨today, sec⟩ then
            o.total_amount
          else 0)).sum := by
  induction orders with
  | nil => rfl
  | cons o os ih =>
    by_cases h : paidOnFilter today o = true
    · rw [todayRevenue, List.filter_cons, if_pos h]
      rw [List.map_cons, List.sum_cons, List.map_cons, List.sum_cons]
      rw [if_pos ((paidOnFilter_iff today o).mp h)]
      rw [← todayRevenue, ih]
    · rw [todayRevenue, List.filter_cons, if_neg h]
      rw [List.map_cons, List.sum_cons]
      rw [if_neg (fun hc => h ((paidOnFilter_iff today o).mpr hc))]
      rw [← todayRevenue, ih, zero_add]

/-- Claim C7: `totalRevenue` sums `total_amount` over exactly the orders
with status `"paid"` (and is `0` when there are none), and `todayRevenue`
sums over the paid orders whose `paid_at` falls on the given calendar day,
comparing the date component only (any time of day counts). -/
theorem C7_revenue (orders : List Order) (today : Nat) :
    totalRevenue orders
        = (orders.map (fun o => if o.status = "paid" then o.total_amount else 0)).sum
    ∧ ((∀ o ∈ orders, o.status ≠ "paid") → totalRevenue orders = 0)
    ∧ todayRevenue orders today
        = (orders.map (fun o =>
            if o.status = "paid" ∧ ∃ sec : Nat, o.paid_at = some ⟨today, sec⟩ then
              o.total_amount
            else 0)).sum := by
  refine ⟨totalRevenue_eq orders, ?_, todayRevenue_eq orders today⟩
  intro h
  rw [totalRevenue_eq orders]
  apply List.sum_eq_zero
  intro x hx
  obtain ⟨o, ho, rfl⟩ := List.mem_map.mp hx
  rw [if_neg (h o ho)]

/-- Witness for C7 at a concrete order list with no paid orders. -/
theorem C7_revenue_witness :
    totalRevenue [pendingOrder]
        = ([pendingOrder].map (fun o => if o.status = "paid" then o.total_amount else 0)).sum
    ∧ totalRevenue [pendingOrder] = 0
    ∧ todayRevenue [pendingOrder] 3
        = ([pendingOrder].map (fun o =>
            if o.status = "paid" ∧ ∃ sec : Nat, o.paid_at = some ⟨3, sec⟩ then
              o.total_amount
            else 0)).sum :=
  ⟨(C7_revenue [pendingOrder] 3).1,
   (C7_revenue [pendingOrder] 3).2.1 (by decide),
   (C7_revenue [pendingOrder] 3).2.2⟩

/-- Claim C4 counterexample: the admin-overview query does not return orders
of any status — a paid order in the input is dropped from the result
(src/app.py:200 filters `Order.status != "paid"`). -/
theorem C4_recent_orders_cex :
    paidOrderCex ∈ [paidOrderCex] ∧ paidOrderCex.status = "paid"
      ∧ recentOrders [paidOrderCex] = [] := by
  refine ⟨List.mem_singleton_self _, rfl, ?_⟩
  rfl

/-- Claim C4 (amended): the admin-overview query returns only non-`"paid"`
orders, newest first, limited to 10; every non-paid order of the input
appears when at most 10 exist. -/
theorem C4_recent_orders_amended (orders : List Order) :
    (recentOrders orders).Sorted newestFirst
    ∧ (∀ o ∈ recentOrders orders, o ∈ orders ∧ o.status ≠ "paid")
    ∧ (recentOrders orders).length
        = min 10 (orders.filter (fun o => !(o.status == "paid"))).length
    ∧ (∀ o ∈ orders, o.status ≠ "paid" →
        (orders.filter (fun o => !(o.status == "paid"))).length ≤ 10 →
        o ∈ recentOrders orders) := by
  refine ⟨?_, ?_, ?_, ?_⟩
  · exact ((List.sorted_insertionSort newestFirst _).sublist (List.take_sublist _ _))
  · intro o ho
    have h1 : o ∈ (orders.filter (fun o => !(o.status == "paid"))).insertionSort newestFirst :=
      List.take_subset _ _ ho
    rw [(List.perm_insertionSort newestFirst _).mem_iff, List.mem_filter] at h1
    refine ⟨h1.1, ?_⟩
    simpa using h1.2
  · rw [recentOrders, List.length_take,
      (List.perm_insertionSort newestFirst _).length_eq]
  · intro o ho hne hlen
    have hmem : o ∈ (orders.filter (fun o => !(o.status == "paid"))).insertionSort newestFirst := by
      rw [(List.perm_insertionSort newestFirst _).mem_iff, List.mem_filter]
      exact ⟨ho, by simpa using hne⟩
    rw [recentOrders, List.take_of_length_le]
    · exact hmem
    · rw [(List.perm_insertionSort newestFirst _).length_eq]
      exact hlen

/-- Witness for the amended C4 at a concrete one-order list. -/
theorem C4_recent_orders_amended_witness :
    (recentOrders [pendingOrder]).Sorted newestFirst
    ∧ (pendingOrder ∈ [pendingOrder] ∧ pendingOrder.status ≠ "paid")
    ∧ (recentOrders [pendingOrder]).length
        = min 10 ([pendingOrder].filter (fun o => !(o.status == "paid"))).length
    ∧ pendingOrder ∈ recentOrders [pendingOrder] :=
  ⟨(C4_recent_orders_amended [pendingOrder]).1,
   (C4_recent_orders_amended [pendingOrder]).2.1 pendingOrder (by decide),
   (C4_recent_orders_amended [pendingOrder]).2.2.1,
   (C4_recent_orders_amended [pendingOrder]).2.2.2 pendingOrder (List.mem_singleton_self _)
     (by decide) (by decide)⟩

/-- Claim C9 helper: every reachable order's status lies in `STATUS_FLOW`. -/
theorem reachable_status_mem (o : Order) (h : Reachable o) : o.status ∈ STATUS_FLOW := by
  induction h with
  | created tid form menu cb now o heq =>
    unfold staff_new_order_create at heq
    simp only [] at heq
    split at heq
    · exact absurd heq (by simp)
    · injection heq with h2
      subst h2
      exact (by decide : ("pending" : String) ∈ STATUS_FLOW)
  | statusUpdated o o' s pm now hr heq ih =>
    match s with
    | none =>
      simp only [staff_update_status] at heq
      injection heq with h1 h2
      exact absurd h2 (by simp)
    | some sv =>
      simp only [staff_update_status] at heq
      by_cases hmem : sv ∉ STATUS_FLOW
      · rw [if_pos hmem] at heq
        injection heq with h1 h2
        exact absurd h2 (by simp)
      · rw [if_neg hmem] at heq
        rw [not_not] at hmem
        by_cases hp : sv = "paid"
        · rw [if_pos hp] at heq
          injection heq with h1 h2
          rw [← h1]
          exact hmem
        · rw [if_neg hp] at heq
          injection heq with h1 h2
          rw [← h1]
          exact hmem
  | acknowledged o now hr ih => exact ih
  | assistanceRequested o now hr ih => exact ih

/-- Claim C9: every order reachable through the app's mutations has a status
among the five pipeline values, is never `"cancelled"`, and on such orders
`is_active` coincides with `status ≠ "paid"`. -/
theorem C9_reachable_invariant (o : Order) (h : Reachable o) :
    o.status ∈ STATUS_FLOW ∧ o.status ≠ "cancelled"
      ∧ (o.is_active = true ↔ o.status ≠ "paid") := by
  have hm := reachable_status_mem o h
  have hc : o.status ≠ "cancelled" := by
    intro hcc
    rw [hcc] at hm
    exact absurd hm (by decide)
  refine ⟨hm, hc, ?_⟩
  simp [Order.is_active, hc]

/-- Witness for C9: a concrete order produced by `staff_new_order_create`. -/
theorem C9_reachable_invariant_witness :
    wOrder.status ∈ STATUS_FLOW ∧ wOrder.status ≠ "cancelled"
      ∧ (wOrder.is_active = true ↔ wOrder.status ≠ "paid") :=
  C9_reachable_invariant wOrder
    (Reachable.created 1 wForm wMenu none ⟨1, 0⟩ wOrder rfl)

/-- Claim C6 helper: unfolding `dedupAdjacent` on a cons by dropping the
whole leading run. -/
theorem dedupAdjacent_cons (c : String) (l : List String) :
    dedupAdjacent (c :: l) = c :: dedupAdjacent (l.dropWhile (· == c)) := by
  induction l with
  | nil => rfl
  | cons d rest ih =>
    by_cases h : c = d
    · subst h
      rw [dedupAdjacent, if_pos rfl, ih]
      rw [List.dropWhile_cons]
      rw [if_pos (by simp)]
    · rw [dedupAdjacent, if_neg h]
      rw [List.dropWhile_cons]
      rw [if_neg (by simp [Ne.symm h])]

/-- Claim C6 helper: `extRuns` after an open run of label `c`. -/
theorem extRuns_some (l : List String) : ∀ c : String,
    extRuns (some c) l = dedupAdjacent (l.dropWhile (· == c)) := by
  induction l with
  | nil => intro c; rfl
  | cons d rest ih =>
    intro c
    by_cases h : c = d
    · subst h
      rw [extRuns, if_pos rfl, ih]
      rw [List.dropWhile_cons, if_pos (by simp)]
    · rw [extRuns, if_neg (by simp [h]), ih d]
      rw [List.dropWhile_cons, if_neg (by simp [Ne.symm h])]
      rw [dedupAdjacent_cons]

/-- Claim C6 helper: `extRuns` with no open run removes adjacent duplicates. -/
theorem extRuns_none (l : List String) : extRuns none l = dedupAdjacent l := by
  cases l with
  | nil => rfl
  | cons c rest =>
    rw [extRuns, if_neg (by simp), extRuns_some]
    rw [dedupAdjacent_cons]

/-- Claim C6 helper: the names of the sections built by the `table_view`
loop, given the name of the accumulator's most recent section. -/
theorem buildRev_map_name (items : List MenuItem) : ∀ (acc : List MenuSection) (idx : Nat),
    ((buildRev acc idx items).1).map MenuSection.name
      = (extRuns (acc.head?.map MenuSection.name) (items.map effectiveCategory)).reverse
        ++ acc.map MenuSection.name := by
  induction items with
  | nil =>
    intro acc idx
    simp [buildRev, extRuns]
  | cons item rest ih =>
    intro acc idx
    cases acc with
    | nil =>
      simp only [buildRev]
      unfold pushSection
      split
      · rw [ih]
        simp [extRuns]
      · rw [ih]
        simp [extRuns]
    | cons s ss =>
      simp only [buildRev]
      by_cases hname : s.name = effectiveCategory item
      · rw [if_pos hname]
        rw [ih]
        simp [extRuns, hname]
      · rw [if_neg hname]
        unfold pushSection
        split
        · rw [ih]
          simp [extRuns, hname]
        · rw [ih]
          simp [extRuns, hname]

/-- Claim C6 helper: the items of the built sections, flattened in display
order, are the input items in order. -/
theorem buildRev_flatten (items : List MenuItem) : ∀ (acc : List MenuSection) (idx : Nat),
    (((buildRev acc idx items).1).reverse.map MenuSection.items).flatten
      = ((acc.reverse.map MenuSection.items).flatten) ++ items := by
  induction items with
  | nil =>
    intro acc idx
    simp [buildRev]
  | cons item rest ih =>
    intro acc idx
    cases acc with
    | nil =>
      simp only [buildRev]
      unfold pushSection
      split
      · rw [ih]
        simp
      · rw [ih]
        simp
    | cons s ss =>
      simp only [buildRev]
      by_cases hname : s.name = effectiveCategory item
      · rw [if_pos hname]
        rw [ih]
        simp
      · rw [if_neg hname]
        unfold pushSection
        split
        · rw [ih]
          simp
        · rw [ih]
          simp

/-- Claim C6 helper: every built section is nonempty and homogeneous — all
its items carry the section's (effective) category name. -/
theorem buildRev_sections_sound (items : List MenuItem) : ∀ (acc : List MenuSection) (idx : Nat),
    (∀ sec ∈ acc, sec.items ≠ [] ∧ ∀ it ∈ sec.items, effectiveCategory it = sec.name) →
    ∀ sec ∈ (buildRev acc idx items).1,
      sec.items ≠ [] ∧ ∀ it ∈ sec.items, effectiveCategory it = sec.name := by
  induction items with
  | nil =>
    intro acc idx hacc
    simpa [buildRev] using hacc
  | cons item rest ih =>
    intro acc idx hacc
    cases acc with
    | nil =>
      simp only [buildRev]
      unfold pushSection
      split
      · apply ih
        intro sec hsec
        simp only [List.mem_singleton] at hsec
        subst hsec
        exact ⟨by simp, by simp⟩
      · apply ih
        intro sec hsec
        simp only [List.mem_singleton] at hsec
        subst hsec
        exact ⟨by simp, by simp⟩
    | cons s ss =>
      simp only [buildRev]
      by_cases hname : s.name = effectiveCategory item
      · rw [if_pos hname]
        apply ih
        intro sec hsec
        rcases List.mem_cons.mp hsec with hsec | hsec
        · subst hsec
          obtain ⟨hne, hall⟩ := hacc s (List.mem_cons_self s ss)
          refine ⟨by simp, ?_⟩
          intro it hit
          rcases List.mem_append.mp hit with hit | hit
          · exact hall it hit
          · simp only [List.mem_singleton] at hit
            subst hit
            exact hname.symm
        · exact hacc sec (List.mem_cons_of_mem s hsec)
      · rw [if_neg hname]
        unfold pushSection
        split
        · apply ih
          intro sec hsec
          rcases List.mem_cons.mp hsec with hsec | hsec
          · subst hsec
            exact ⟨by simp, by simp⟩
          · exact hacc sec hsec
        · apply ih
          intro sec hsec
          rcases List.mem_cons.mp hsec with hsec | hsec
          · subst hsec
            exact ⟨by simp, by simp⟩
          · exact hacc sec hsec

/-- Claim C6: menu sectioning groups consecutive items sharing the same
effective category label into one section (adjacency-based: the section
names are the adjacent-duplicate-collapsed label sequence, and the sections
flatten back to the input in order, each section nonempty and homogeneous);
a nil or blank category maps to the fixed fallback label; and the categories
Soup, Soup, Drinks in that order yield exactly the 2 expected sections. -/
theorem C6_menu_sections :
    (∀ items : List MenuItem,
        (table_view_sections items).map MenuSection.name
            = dedupAdjacent (items.map effectiveCategory)
        ∧ ((table_view_sections items).map MenuSection.items).flatten = items
        ∧ (∀ sec ∈ table_view_sections items,
            sec.items ≠ [] ∧ ∀ it ∈ sec.items, effectiveCategory it = sec.name))
    ∧ (∀ it : MenuItem, (it.category = none ∨ it.category = some "") →
        effectiveCategory it = "เมนูแนะนำ")
    ∧ table_view_sections [soupA, soupB, drinkC]
        = [⟨"Soup", "soup", [soupA, soupB]⟩, ⟨"Drinks", "drinks", [drinkC]⟩] := by
  refine ⟨?_, ?_, ?_⟩
  · intro items
    refine ⟨?_, ?_, ?_⟩
    · rw [table_view_sections, List.map_reverse, buildRev_map_name]
      simp [extRuns_none]
    · rw [table_view_sections]
      rw [show ((buildRev [] 1 items).1.reverse.map MenuSection.items).flatten
            = (([] : List MenuSection).reverse.map MenuSection.items).flatten ++ items
          from buildRev_flatten items [] 1]
      rfl
    · intro sec hsec
      apply buildRev_sections_sound items [] 1 (by simp)
      rw [table_view_sections, List.mem_reverse] at hsec
      exact hsec
  · intro it hit
    rcases hit with h | h
    · rw [effectiveCategory, h]
    · rw [effectiveCategory, h]
      rfl
  · rfl

/-- Witness for C6 at the concrete Soup, Soup, Drinks menu. -/
theorem C6_menu_sections_witness :
    (table_view_sections [soupA, soupB, drinkC]).map MenuSection.name
        = dedupAdjacent ([soupA, soupB, drinkC].map effectiveCategory)
    ∧ effectiveCategory ⟨9, "X", "", 5, none, true⟩ = "เมนูแนะนำ"
    ∧ ((MenuSection.mk "Soup" "soup" [soupA, soupB]).items ≠ []
        ∧ ∀ it ∈ (MenuSection.mk "Soup" "soup" [soupA, soupB]).items,
            effectiveCategory it = (MenuSection.mk "Soup" "soup" [soupA, soupB]).name) :=
  ⟨(C6_menu_sections.1 [soupA, soupB, drinkC]).1,
   C6_menu_sections.2.1 ⟨9, "X", "", 5, none, true⟩ (Or.inl rfl),
   (C6_menu_sections.1 [soupA, soupB, drinkC]).2.2 ⟨"Soup", "soup", [soupA, soupB]⟩
     (by rw [C6_menu_sections.2.2]; exact List.mem_cons_self _ _)⟩

/-- Claim C10 helper: with enough fuel, `toDigitsRev` computes the decimal
digits. -/
theorem toDigitsRev_eq_digits : ∀ (fuel n : Nat), n ≤ fuel →
    toDigitsRev fuel n = Nat.digits 10 n := by
  intro fuel
  induction fuel with
  | zero =>
    intro n hn
    obtain rfl : n = 0 := Nat.le_zero.mp hn
    simp [toDigitsRev]
  | succ f ih =>
    intro n hn
    by_cases hz : n = 0
    · subst hz
      simp [toDigitsRev]
    · rw [toDigitsRev, if_neg hz]
      rw [ih (n / 10) (by
        have h2 : n / 10 < n := Nat.div_lt_self (Nat.pos_of_ne_zero hz) (by norm_num)
        omega)]
      rw [Nat.digits_def' (by norm_num : (1 : Nat) < 10) (Nat.pos_of_ne_zero hz)]

/-- Claim C10 helper: `Nat.digitChar` is injective below 10. -/
theorem digitChar_inj_lt {a b : Nat} (ha : a < 10) (hb : b < 10)
    (h : Nat.digitChar a = Nat.digitChar b) : a = b := by
  have key : ∀ x y : Fin 10, Nat.digitChar x.val = Nat.digitChar y.val → x = y := by decide
  exact congrArg Fin.val (key ⟨a, ha⟩ ⟨b, hb⟩ h)

/-- Claim C10 helper: mapping `Nat.digitChar` over digit lists is injective. -/
theorem map_digitChar_inj : ∀ {l1 l2 : List Nat}, (∀ x ∈ l1, x < 10) → (∀ x ∈ l2, x < 10) →
    l1.map Nat.digitChar = l2.map Nat.digitChar → l1 = l2 := by
  intro l1
  induction l1 with
  | nil =>
    intro l2 _ _ h
    cases l2 with
    | nil => rfl
    | cons b t => exact absurd h (by simp)
  | cons a t ih =>
    intro l2 h1 h2 h
    cases l2 with
    | nil => exact absurd h (by simp)
    | cons b t2 =>
      simp only [List.map_cons, List.cons.injEq] at h
      obtain ⟨hab, htl⟩ := h
      rw [digitChar_inj_lt (h1 a (List.mem_cons_self a t)) (h2 b (List.mem_cons_self b t2)) hab,
        ih (fun x hx => h1 x (List.mem_cons_of_mem a hx))
          (fun x hx => h2 x (List.mem_cons_of_mem b hx)) htl]

/-- Claim C10 helper: a nonzero number's representation is never `"0"`. -/
theorem natRepr_ne_zero_case (b : Nat) (hb : b ≠ 0)
    (h : ("0" : String) = ⟨((toDigitsRev b b).map Nat.digitChar).reverse⟩) : False := by
  rw [toDigitsRev_eq_digits b b le_rfl] at h
  have hd : ((Nat.digits 10 b).map Nat.digitChar).reverse = ['0'] :=
    (congrArg String.data h).symm
  have hd2 : (Nat.digits 10 b).map Nat.digitChar = ['0'] := by
    have := congrArg List.reverse hd
    simpa using this
  have hdig : Nat.digits 10 b = [0] := by
    apply map_digitChar_inj (fun x hx => Nat.digits_lt_base (by norm_num) hx)
      (by intro x hx; simp only [List.mem_singleton] at hx; subst hx; norm_num)
    rw [hd2]
    rfl
  have hof := Nat.ofDigits_digits 10 b
  rw [hdig] at hof
  simp [Nat.ofDigits] at hof
  exact hb hof.symm

/-- Claim C10 helper: the decimal representation is injective. -/
theorem natRepr_injective : Function.Injective natRepr := by
  intro a b h
  unfold natRepr at h
  by_cases ha : a = 0 <;> by_cases hb : b = 0
  · rw [ha, hb]
  · rw [if_pos ha, if_neg hb] at h
    exact (natRepr_ne_zero_case b hb h).elim
  · rw [if_neg ha, if_pos hb] at h
    exact (natRepr_ne_zero_case a ha h.symm).elim
  · rw [if_neg ha, if_neg hb] at h
    rw [toDigitsRev_eq_digits a a le_rfl, toDigitsRev_eq_digits b b le_rfl] at h
    have hd := congrArg String.data h
    have hd2 : (Nat.digits 10 a).map Nat.digitChar = (Nat.digits 10 b).map Nat.digitChar := by
      have := congrArg List.reverse hd
      simpa using this
    exact Nat.digits_inj_iff.mp
      (map_digitChar_inj (fun x hx => Nat.digits_lt_base (by norm_num) hx)
        (fun x hx => Nat.digits_lt_base (by norm_num) hx) hd2)

/-- Claim C10 helper: a numbered fallback anchor never equals `"section"`. -/
theorem mkFallbackAnchor_ne_section (n : Nat) : mkFallbackAnchor n ≠ "section" := by
  intro h
  have hl := congrArg String.length h
  rw [mkFallbackAnchor, String.length_append] at hl
  have h8 : ("section-" : String).length = 8 := rfl
  have h7 : ("section" : String).length = 7 := rfl
  omega

/-- Claim C10 helper: distinct fallback indices give distinct anchors. -/
theorem mkFallbackAnchor_inj : Function.Injective (fun i => mkFallbackAnchor (i + 1)) := by
  intro a b h
  simp only [mkFallbackAnchor] at h
  have hd := congrArg String.data h
  rw [String.data_append, String.data_append] at hd
  have h3 : natRepr (a + 1) = natRepr (b + 1) := String.ext (List.append_cancel_left hd)
  have := natRepr_injective h3
  omega

/-- Claim C10 helper: anchors of a filtered singleton section list. -/
theorem filter_map_anchor_singleton (p : MenuSection → Bool) (x : MenuSection) :
    (List.filter p [x]).map MenuSection.anchor
      = if p x = true then [x.anchor] else [] := by
  by_cases h : p x = true
  · rw [List.filter_cons, if_pos h, List.filter_nil, List.map_cons, List.map_nil, if_pos h]
  · rw [List.filter_cons, if_neg h, List.filter_nil, List.map_nil, if_neg h]

/-- Claim C10 helper: through the `table_view` loop, the anchors of the
fallback sections built so far are exactly `section-1 … section-(idx-1)` in
display order, and every non-fallback section keeps its slug anchor. -/
theorem buildRev_fallback (items : List MenuItem) : ∀ (acc : List MenuSection) (idx : Nat),
    1 ≤ idx →
    ((acc.reverse.filter isFallbackSec).map MenuSection.anchor
        = (List.range (idx - 1)).map (fun i => mkFallbackAnchor (i + 1))) →
    (∀ sec ∈ acc, isFallbackSec sec = false → sec.anchor = slugify sec.name) →
    1 ≤ (buildRev acc idx items).2
    ∧ (((buildRev acc idx items).1.reverse.filter isFallbackSec).map MenuSection.anchor
        = (List.range ((buildRev acc idx items).2 - 1)).map (fun i => mkFallbackAnchor (i + 1)))
    ∧ (∀ sec ∈ (buildRev acc idx items).1, isFallbackSec sec = false →
        sec.anchor = slugify sec.name) := by
  induction items with
  | nil =>
    intro acc idx h1 h2 h3
    exact ⟨h1, h2, h3⟩
  | cons item rest ih =>
    intro acc idx h1 h2 h3
    have hpush : ∀ (pre : List MenuSection),
        ((pre.reverse.filter isFallbackSec).map MenuSection.anchor
            = (List.range (idx - 1)).map (fun i => mkFallbackAnchor (i + 1))) →
        (∀ sec ∈ pre, isFallbackSec sec = false → sec.anchor = slugify sec.name) →
        1 ≤ (buildRev (pushSection pre idx (effectiveCategory item) item).1
              (pushSection pre idx (effectiveCategory item) item).2 rest).2
        ∧ (((buildRev (pushSection pre idx (effectiveCategory item) item).1
              (pushSection pre idx (effectiveCategory item) item).2 rest).1.reverse.filter
                isFallbackSec).map MenuSection.anchor
            = (List.range ((buildRev (pushSection pre idx (effectiveCategory item) item).1
                (pushSection pre idx (effectiveCategory item) item).2 rest).2 - 1)).map
                  (fun i => mkFallbackAnchor (i + 1)))
        ∧ (∀ sec ∈ (buildRev (pushSection pre idx (effectiveCategory item) item).1
              (pushSection pre idx (effectiveCategory item) item).2 rest).1,
            isFallbackSec sec = false → sec.anchor = slugify sec.name) := by
      intro pre hpre2 hpre3
      by_cases hslug : slugify (effectiveCategory item) = "section"
      · rw [pushSection, if_pos hslug]
        apply ih
        · omega
        · have hfb : isFallbackSec
              ⟨effectiveCategory item, mkFallbackAnchor idx, [item]⟩ = true := by
            simp [isFallbackSec, hslug]
          rw [List.reverse_cons, List.filter_append, List.map_append, hpre2]
          rw [List.filter_cons, if_pos hfb]
          rw [Nat.add_sub_cancel]
          have hidx : idx = idx - 1 + 1 := by omega
          conv_rhs => rw [hidx, List.range_succ]
          rw [List.map_append]
          simp only [List.filter_nil, List.map_cons, List.map_nil]
          rw [← hidx]
        · intro sec hsec hfalse
          rcases List.mem_cons.mp hsec with rfl | hmem
          · have hfb : isFallbackSec
                ⟨effectiveCategory item, mkFallbackAnchor idx, [item]⟩ = true := by
              simp [isFallbackSec, hslug]
            rw [hfb] at hfalse
            exact absurd hfalse (by simp)
          · exact hpre3 sec hmem hfalse
      · rw [pushSection, if_neg hslug]
        apply ih
        · exact h1
        · have hfb : isFallbackSec
              ⟨effectiveCategory item, slugify (effectiveCategory item), [item]⟩ = false := by
            simp [isFallbackSec, hslug]
          rw [List.reverse_cons, List.filter_append, List.map_append, hpre2]
          rw [List.filter_cons, if_neg (by rw [hfb]; exact Bool.false_ne_true)]
          simp
        · intro sec hsec hfalse
          rcases List.mem_cons.mp hsec with rfl | hmem
          · rfl
          · exact hpre3 sec hmem hfalse
    cases acc with
    | nil =>
      simp only [buildRev]
      exact hpush [] h2 h3
    | cons s ss =>
      simp only [buildRev]
      by_cases hname : s.name = effectiveCategory item
      · rw [if_pos hname]
        apply ih
        · exact h1
        · rw [List.reverse_cons, List.filter_append, List.map_append,
            filter_map_anchor_singleton]
          rw [List.reverse_cons, List.filter_append, List.map_append,
            filter_map_anchor_singleton] at h2
          exact h2
        · intro sec hsec hfalse
          rcases List.mem_cons.mp hsec with rfl | hmem
          · exact h3 s (List.mem_cons_self s ss) hfalse
          · exact h3 sec (List.mem_cons_of_mem s hmem) hfalse
      · rw [if_neg hname]
        exact hpush (s :: ss) h2 h3

/-- Claim C10: no emitted section anchor equals the literal string
`"section"`; the fallback anchors (those of the sections whose category
slugifies to `"section"`, including a category literally named `"Section"`)
are numbered `section-1, section-2, …` in order, hence pairwise distinct. -/
theorem C10_section_anchors (items : List MenuItem) :
    (∀ sec ∈ table_view_sections items, sec.anchor ≠ "section")
    ∧ (∃ k, ((table_view_sections items).filter isFallbackSec).map MenuSection.anchor
        = (List.range k).map (fun i => mkFallbackAnchor (i + 1)))
    ∧ (((table_view_sections items).filter isFallbackSec).map MenuSection.anchor).Nodup := by
  obtain ⟨h1, h2, h3⟩ := buildRev_fallback items [] 1 le_rfl (by simp) (by simp)
  refine ⟨?_, ⟨(buildRev [] 1 items).2 - 1, h2⟩, ?_⟩
  · intro sec hsec
    by_cases hfb : isFallbackSec sec = true
    · have hmem : sec.anchor
          ∈ ((table_view_sections items).filter isFallbackSec).map MenuSection.anchor :=
        List.mem_map_of_mem _ (List.mem_filter.mpr ⟨hsec, hfb⟩)
      rw [table_view_sections] at hmem
      rw [h2] at hmem
      obtain ⟨i, -, hi⟩ := List.mem_map.mp hmem
      rw [← hi]
      exact mkFallbackAnchor_ne_section (i + 1)
    · rw [table_view_sections, List.mem_reverse] at hsec
      rw [h3 sec hsec (by simpa using hfb)]
      intro hc
      exact hfb (by simp [isFallbackSec, hc])
  · rw [table_view_sections, h2]
    exact (List.nodup_range _).map mkFallbackAnchor_inj

/-- Witness for C10 at a menu containing a category literally named
`"Section"` and a symbol-only category. -/
theorem C10_section_anchors_witness :
    ((MenuSection.mk "Section" (mkFallbackAnchor 1) [secItemA]).anchor ≠ "section")
    ∧ (∃ k, ((table_view_sections [secItemA, secItemB]).filter isFallbackSec).map
          MenuSection.anchor
        = (List.range k).map (fun i => mkFallbackAnchor (i + 1)))
    ∧ (((table_view_sections [secItemA, secItemB]).filter isFallbackSec).map
          MenuSection.anchor).Nodup :=
  ⟨(C10_section_anchors [secItemA, secItemB]).1
      ⟨"Section", mkFallbackAnchor 1, [secItemA]⟩ (by decide),
   (C10_section_anchors [secItemA, secItemB]).2.1,
   (C10_section_anchors [secItemA, secItemB]).2.2⟩

end QRCafe
